import Mathlib

/-!
Verification development for the lead-ranking and prompt-optimization core of
the throxy-project repository.

The development shallowly embeds the pure algorithmic core of two TypeScript
modules:

- the batch ranking orchestrator and its response parser
  (src/unnamed/part_011, a ranking service module);
- the genetic prompt optimizer and fitness scorer
  (src/packages/api/src/services/session-store.ts, second document:
  the prompt-optimizer service).

External collaborators are abstracted as explicit oracle parameters:

- the library JSON decoder (JSON.parse) becomes a parameter
  decode : String → Option Json; the brace-span extraction in front of it is
  embedded concretely;
- the LLM chat collaborator and Math.random become oracle functions supplying
  the values the code reads from them (per-company call outcomes, offspring
  contents, per-call fitness results, random draws in the unit interval);
- the persistence store becomes explicit lists of rows.

JavaScript numbers are modelled as ℚ (for fitness scores and random draws) and
Int (for ranks); NaN, which the parser can produce via Number(undefined), is
modelled by a dedicated JsNum value.  Console logging and the in-memory
progress maps are modelled only through the progress values they store.
-/

namespace ThroxySpec

/-! ## JSON value model

A value produced by the library JSON decoder.  Numbers are restricted to
integers (the ranks the system reads are integral); fields of a decoded object
are assumed key-unique, as JSON.parse collapses duplicate keys. -/

inductive Json where
  | null : Json
  | bool : Bool → Json
  | num : Int → Json
  | str : String → Json
  | arr : List Json → Json
  | obj : List (String × Json) → Json

/-- Result of the JavaScript Number(x) coercion.  Number(undefined) is NaN,
which Option Int cannot represent, hence a dedicated type.  String and
array/object coercions are collapsed to NaN; the properties below never
inspect a rank value produced from such an input. -/
inductive JsNum where
  | nan : JsNum
  | int : Int → JsNum
deriving DecidableEq

/-- Property access item.key on a decoded value.  A null receiver throws a
TypeError (the message text is immaterial to the properties below); primitives
and arrays box and yield undefined (modelled as none); objects look the key
up.  Decoded JSON has no undefined values, so null is the only throwing
receiver. -/
def jsGet : Json → String → Except String (Option Json)
  | .null, _ => .error "TypeError: cannot read properties of null"
  | .obj fields, key => .ok (fields.lookup key)
  | _, _ => .ok none

/-- JavaScript truthiness of a possibly-undefined value (used by the
"if (!item.leadId)" guard).  NaN is not a JSON literal, so it does not occur
among decoded values. -/
def jsTruthy : Option Json → Bool
  | none => false
  | some .null => false
  | some (.bool b) => b
  | some (.num n) => n != 0
  | some (.str s) => s != ""
  | some (.arr _) => true
  | some (.obj _) => true

/-- JavaScript Number(x) on a possibly-undefined decoded value.  Numeric-string
coercion is collapsed to NaN (unused by the properties below). -/
def jsToNumber : Option Json → JsNum
  | none => .nan
  | some .null => .int 0
  | some (.bool b) => .int (if b then 1 else 0)
  | some (.num n) => .int n
  | some (.str _) => .nan
  | some (.arr _) => .nan
  | some (.obj _) => .nan

/-- JavaScript String(x) on a decoded value.  Array serialization is collapsed
to "" (unused by the properties below). -/
def jsToString : Json → String
  | .null => "null"
  | .bool b => if b then "true" else "false"
  | .num n => toString n
  | .str s => s
  | .arr _ => ""
  | .obj _ => "[object Object]"

def openBrace : Char := Char.ofNat 123

def closeBrace : Char := Char.ofNat 125

namespace Ranking

/-! ## Response parser (part_011, lines 196–275) -/

/-- RankingResult from part_011: leadId, rank (null modelled as none, a
numeric rank — possibly NaN — as some), reasoning. -/
structure RankingResult where
  leadId : String
  rank : Option JsNum
  reasoning : String
deriving DecidableEq

/-- createFailedResult from part_011. -/
def createFailedResult (leadId : String) (reason : String) : RankingResult :=
  { leadId := leadId, rank := none, reasoning := reason }

/-- Span matched by the regex from the first opening brace to the last closing
brace of the response (the regex in extractJson, part_011 line 199); none when
the regex does not match. -/
def braceSpan (response : String) : Option String :=
  let cs := response.toList
  match cs.findIdx? (· = openBrace) with
  | none => none
  | some i =>
    match cs.reverse.findIdx? (· = closeBrace) with
    | none => none
    | some rj =>
      let j := cs.length - 1 - rj
      if i < j then some (String.mk ((cs.take (j + 1)).drop i)) else none

/-- extractJson from part_011: regex match for the brace span, then JSON.parse
with a try/catch.  The decoder is the library JSON.parse, passed as an oracle
parameter; decode returning none models a parse exception. -/
def extractJson (decode : String → Option Json) (response : String) : Option Json :=
  (braceSpan response).bind decode

/-- Intermediate result of parseRankingItem before the leadId-membership check:
the raw (truthy) leadId value, the rank, and the reasoning. -/
structure RawRankingItem where
  leadId : Json
  rank : Option JsNum
  reasoning : String

/-- parseRankingItem from part_011 (lines 216–227).  The first property
access, item.leadId, throws when the rankings entry is null; the TypeError
propagates uncaught out of parseRankingResponse.  With a non-null item, a
falsy leadId yields null (the entry is skipped); otherwise the entry is kept
with rank := (item.rank === null ? null : Number(item.rank)) and reasoning :=
String(item.reasoning ?? "").  The rank/reasoning accesses are sequenced here
unconditionally: on the same non-null receiver they cannot throw, and when
leadId is falsy their values are discarded, as in the source's early
return. -/
def parseRankingItem (item : Json) : Except String (Option RawRankingItem) :=
  (jsGet item "leadId").bind fun lid =>
    (jsGet item "rank").bind fun rankv =>
      (jsGet item "reasoning").map fun reasonv =>
        if jsTruthy lid then
          some { leadId := lid.getD Json.null
                 rank :=
                   match rankv with
                   | some .null => none
                   | v => some (jsToNumber v)
                 reasoning :=
                   match reasonv with
                   | none => ""
                   | some .null => ""
                   | some v => jsToString v }
        else none

/-- Loop over the decoded rankings array (part_011 lines 251–263): a thrown
TypeError from a null entry aborts the loop and propagates; otherwise keep an
entry only when its leadId strictly equals a requested id (strict equality of
a string id rules out non-string leadId values) and has not been processed;
returns the kept results in response order together with the final processed
set (as a list, most recent first). -/
def parseItems :
    List Json → List String → List String →
      Except String (List RankingResult × List String)
  | [], _, processed => .ok ([], processed)
  | item :: rest, leadIds, processed =>
    match parseRankingItem item with
    | .error e => .error e
    | .ok none => parseItems rest leadIds processed
    | .ok (some raw) =>
      match raw.leadId with
      | .str lid =>
        if leadIds.contains lid && !processed.contains lid then
          match parseItems rest leadIds (lid :: processed) with
          | .error e => .error e
          | .ok out =>
            .ok ({ leadId := lid, rank := raw.rank, reasoning := raw.reasoning }
              :: out.1, out.2)
        else parseItems rest leadIds processed
      | _ => parseItems rest leadIds processed

/-- parseRankingResponse from part_011 (lines 230–275), with the JSON decoder
as an oracle parameter.  An error value models an uncaught TypeError: the
.rankings access on a null payload, or a null entry inside the rankings
array; in those cases the function returns nothing. -/
def parseRankingResponse (decode : String → Option Json) (response : String)
    (leadIds : List String) : Except String (List RankingResult) :=
  match extractJson decode response with
  | none =>
    .ok (leadIds.map (fun id => createFailedResult id "No JSON found in response"))
  | some parsed =>
    match jsGet parsed "rankings" with
    | .error e => .error e
    | .ok (some (.arr items)) =>
      match parseItems items leadIds [] with
      | .error e => .error e
      | .ok out =>
        .ok (out.1 ++ (leadIds.filter (fun id => !out.2.contains id)).map
          (fun id => createFailedResult id "Failed to parse ranking from AI response"))
    | .ok _ =>
      .ok (leadIds.map (fun id => createFailedResult id "Invalid response format"))

/-! ## Prompt selection, chat options, orchestrator (part_011) -/

/-- ActivePrompt from part_011 (line 338). -/
structure ActivePrompt where
  content : String
  version : Nat
deriving DecidableEq

/-- selectPromptForRanking from part_011 (lines 340–346). -/
def selectPromptForRanking (activePrompt : ActivePrompt)
    (sessionPrompt : Option String) : ActivePrompt :=
  { content := sessionPrompt.getD activePrompt.content
    version := activePrompt.version }

/-- LeadForRanking from part_011 (lines 37–45). -/
structure LeadForRanking where
  id : String
  firstName : String
  lastName : String
  jobTitle : String
  accountName : String
  employeeRange : Option String
  industry : Option String
deriving DecidableEq

/-- Options of the chat call made by rankLeadsBatch (part_011 lines 480–491).
Temperature 0.2 is modelled as the rational 1/5. -/
structure ChatOptions where
  jsonMode : Bool
  temperature : ℚ
  maxTokens : Nat
deriving DecidableEq

/-- Chat options built by rankLeadsBatch for a company group (part_011
lines 480–491): maxTokens = Math.max(4096, 400 + companyLeads.length * 220). -/
def rankLeadsBatchOptions (companyLeads : List LeadForRanking) : ChatOptions :=
  { jsonMode := true
    temperature := 1 / 5
    maxTokens := max 4096 (400 + companyLeads.length * 220) }

/-- groupLeadsByCompany from part_011 (lines 282–291): a JS Map built by
insertion-order upserts, modelled as an association list. -/
def upsertGroup (groups : List (String × List LeadForRanking))
    (name : String) (lead : LeadForRanking) : List (String × List LeadForRanking) :=
  match groups with
  | [] => [(name, [lead])]
  | (k, v) :: rest =>
    if k = name then (k, v ++ [lead]) :: rest
    else (k, v) :: upsertGroup rest name lead

def groupLeadsByCompany (allLeads : List LeadForRanking) :
    List (String × List LeadForRanking) :=
  allLeads.foldl (fun gs l => upsertGroup gs l.accountName l) []

inductive RunStatus where
  | idle : RunStatus
  | running : RunStatus
  | completed : RunStatus
  | error : RunStatus
deriving DecidableEq

/-- RankingProgress from part_011 (lines 29–35). -/
structure RankingProgress where
  total : Nat
  completed : Nat
  currentCompany : Option String
  status : RunStatus
  error : Option String
deriving DecidableEq

/-- Outcome of one company group's effectful section inside processCompany's
try block — the rankLeadsBatch LLM call plus saveRankings persistence — as
seen by the caller: the parsed results on success, or the thrown error. -/
abbrev CompanyOutcome := Except String (List RankingResult)

/-- processCompany from part_011 (lines 508–533): on any exception from the
LLM call or persistence, log and return the group's full lead count with no
results, so the run continues with the next company. -/
def processCompany (outcome : CompanyOutcome)
    (companyLeads : List LeadForRanking) : Nat × List RankingResult :=
  match outcome with
  | .ok results => (companyLeads.length, results)
  | .error _ => (companyLeads.length, [])

/-- Per-company loop of runRankingProcess (part_011 lines 569–589): update the
current company, process it, advance the completed counter by the group size;
afterwards mark the run completed and clear the current company.  The outcome
oracle gives the effect outcome of the i-th company. -/
def runRankingCompanies (outcome : Nat → CompanyOutcome) :
    List (String × List LeadForRanking) → Nat → RankingProgress → RankingProgress
  | [], _, p => { p with status := .completed, currentCompany := none }
  | (name, ls) :: rest, i, p =>
    let p1 := { p with currentCompany := some name }
    let step := processCompany (outcome i) ls
    runRankingCompanies outcome rest (i + 1) { p1 with completed := p1.completed + step.1 }

/-- Core of runRankingProcess (part_011 lines 536–603) for a fetched lead set:
group by company, initialize progress to running with total = lead count, then
run the per-company loop.  Session-scoped change capture and prompt selection
feed only values that this progress-level property does not mention and are
modelled separately (selectPromptForRanking above, session store below). -/
def runRankingProcess (outcome : Nat → CompanyOutcome)
    (allLeads : List LeadForRanking) : RankingProgress :=
  let companies := groupLeadsByCompany allLeads
  runRankingCompanies outcome companies 0
    { total := allLeads.length, completed := 0, currentCompany := none
      status := .running, error := none }

/-- Sum of the group sizes of a grouped lead list. -/
def groupSizes (groups : List (String × List LeadForRanking)) : Nat :=
  (groups.map (fun g => g.2.length)).sum

/-! ## Prompt rows (schema/index.ts and part_011's default-prompt creation) -/

/-- Row of the prompts table (the fields the version logic reads). -/
structure PromptRow where
  version : Nat
  content : String
  isActive : Bool
deriving DecidableEq

/-- fetchLatestPromptVersion from part_011 (lines 359–367): the highest
persisted version, 0 when the table is empty (orderBy version desc, limit 1). -/
def fetchLatestPromptVersion (table : List PromptRow) : Nat :=
  (table.map (fun r => r.version)).foldr max 0

/-- createDefaultPrompt from part_011 (lines 369–378): insert the default
prompt as an active row with version latest + 1 and return the version. -/
def createDefaultPrompt (table : List PromptRow) (defaultContent : String) :
    List PromptRow × Nat :=
  let nextVersion := fetchLatestPromptVersion table + 1
  (table ++ [{ version := nextVersion, content := defaultContent, isActive := true }],
   nextVersion)

end Ranking

namespace Optimizer

/-! ## Fitness scorer (session-store.ts second document, lines 221–250) -/

/-- scorePrediction: 0 on a relevance-classification mismatch, 1 when both are
irrelevant, otherwise 1 - |predicted - actual| / 9; branch order as in the
source. -/
def scorePrediction (predicted actual : Option Int) : ℚ :=
  if actual.isSome != predicted.isSome then 0
  else if actual.isNone then 1
  else 1 - |((predicted.getD 0 : Int) : ℚ) - ((actual.getD 0 : Int) : ℚ)| / 9

/-- Prediction from session-store.ts (lines 90–94); the lead snapshot is
irrelevant to scoring and omitted. -/
structure Prediction where
  predicted : Option Int
  actual : Option Int
deriving DecidableEq

/-- calculateFitness: 0 for an empty prediction list, otherwise the sum of the
per-prediction scores divided by the count. -/
def calculateFitness (predictions : List Prediction) : ℚ :=
  if predictions.length = 0 then 0
  else
    ((predictions.map (fun p => scorePrediction p.predicted p.actual)).sum) /
      (predictions.length : ℚ)

/-! ## Genetic algorithm (session-store.ts second document, lines 520–964)

The LLM mutation/crossover calls, the evaluatePrompt calls and Math.random
are oracle parameters:

- evalFitness n is the fitness returned by the n-th evaluatePrompt call of
  the run (each call returns a calculateFitness value);
- mutationOf i is the content returned by the i-th initial mutation call;
- draws for offspring bundle the values the generateOffspring randomness and
  LLM calls produce: the child content, the first tournament parent's version,
  and whether the mutation branch (with its one quick evaluation) was taken. -/

/-- PromptCandidate from session-store.ts (lines 70–76). -/
structure PromptCandidate where
  content : String
  version : Nat
  fitness : ℚ
  generation : Nat
  parentVersion : Option Nat
deriving DecidableEq

/-- createCandidate from session-store.ts (lines 542–553): fresh candidates
start with fitness 0. -/
def createCandidate (content : String) (version : Nat) (generation : Nat)
    (parentVersion : Option Nat) : PromptCandidate :=
  { content := content, version := version, fitness := 0
    generation := generation, parentVersion := parentVersion }

/-- tournamentSelect from session-store.ts (lines 525–539).  The random draws
are an oracle rand with rand k ∈ [0, 1) standing for the k-th Math.random();
the index is Math.floor(rand k * population.length).  The none results model
the thrown errors: an out-of-bounds index ("Population is empty") and the
reduce of an empty tournament. -/
def tournamentIndex (rand : Nat → ℚ) (len : Nat) (k : Nat) : Nat :=
  (⌊rand k * (len : ℚ)⌋).toNat

/-- Collect the tournament entries for the given draw numbers in order; none
as soon as an index misses the population (the "Population is empty" throw). -/
def collectDraws (rand : Nat → ℚ) (population : List PromptCandidate) :
    List Nat → Option (List PromptCandidate)
  | [] => some []
  | k :: rest =>
    match population.get? (tournamentIndex rand population.length k),
        collectDraws rand population rest with
    | some c, some cs => some (c :: cs)
    | _, _ => none

def tournamentSelect (rand : Nat → ℚ) (population : List PromptCandidate)
    (tournamentSize : Nat) : Option PromptCandidate :=
  match collectDraws rand population (List.range tournamentSize) with
  | none => none
  | some [] => none
  | some (c :: rest) =>
    some (rest.foldl (fun best current =>
      if best.fitness < current.fitness then current else best) c)

/-- sortByFitness from session-store.ts (lines 745–746): a stable descending
sort by fitness, as the JS Array.prototype.sort with comparator
b.fitness - a.fitness (stable per the ECMAScript specification).  A stable
sort for a total preorder is unique, so stable insertion sort gives the same
list the source computes. -/
def insertByFitness (c : PromptCandidate) :
    List PromptCandidate → List PromptCandidate
  | [] => [c]
  | d :: rest =>
    if d.fitness ≤ c.fitness then c :: d :: rest
    else d :: insertByFitness c rest

def sortByFitness : List PromptCandidate → List PromptCandidate
  | [] => []
  | c :: rest => insertByFitness c (sortByFitness rest)

/-- evaluatePopulation from session-store.ts (lines 719–742): assign each
candidate from index startFrom onwards the fitness of the next evaluatePrompt
call; evalIdx is the number of evaluatePrompt calls made so far in the run.
Returns the updated population and the number of evaluations run. -/
def evaluatePopulation (evalFitness : Nat → ℚ) :
    List PromptCandidate → Nat → Nat → List PromptCandidate × Nat
  | [], _, _ => ([], 0)
  | c :: rest, 0, evalIdx =>
    let out := evaluatePopulation evalFitness rest 0 (evalIdx + 1)
    ({ c with fitness := evalFitness evalIdx } :: out.1, out.2 + 1)
  | c :: rest, s + 1, evalIdx =>
    let out := evaluatePopulation evalFitness rest s evalIdx
    (c :: out.1, out.2)

/-- Values generateOffspring (lines 749–800) draws from its random and LLM
oracles for one offspring: the child content, the first tournament parent's
version (recorded as parentVersion), and whether the Math.random() < mutationRate
branch ran (charging one extra quick evaluation). -/
structure OffspringDraw where
  content : String
  parentVersion : Option Nat
  usedMutation : Bool

/-- Number of quick evaluations charged by a list of offspring draws. -/
def offspringExtraEvals (draws : List OffspringDraw) : Nat :=
  (draws.map (fun d => if d.usedMutation then 1 else 0)).sum

/-- Result of runGeneration. -/
structure GenResult where
  newPopulation : List PromptCandidate
  nextVersion : Nat
  evaluationsRun : Nat

/-- runGeneration from session-store.ts (lines 803–857): keep the top
eliteCount candidates with only the generation bumped; create offspring with
consecutive versions until the population size is reached; evaluate the new
population skipping the first eliteCount indices; sort descending by
fitness. -/
def runGeneration (evalFitness : Nat → ℚ) (offspringOf : Nat → OffspringDraw)
    (population : List PromptCandidate) (populationSize eliteCount : Nat)
    (generation nextVersion evalIdx : Nat) : GenResult :=
  let elites := (population.take eliteCount).map
    (fun c => { c with generation := generation })
  let numOffspring := populationSize - elites.length
  let draws := (List.range numOffspring).map offspringOf
  let offspring := (List.range numOffspring).map (fun k =>
    let d := offspringOf k
    createCandidate d.content (nextVersion + k) generation d.parentVersion)
  let quickEvals := offspringExtraEvals draws
  let out := evaluatePopulation evalFitness (elites ++ offspring) eliteCount
    (evalIdx + quickEvals)
  { newPopulation := sortByFitness out.1
    nextVersion := nextVersion + numOffspring
    evaluationsRun := quickEvals + out.2 }

/-- State threaded by the evolution loop of runPromptOptimization: the current
population, the next unassigned version, the best-ever candidate (whose
fitness is the reported bestFitness), and the number of evaluatePrompt calls
made so far (the reported evaluationsRun). -/
structure OptState where
  population : List PromptCandidate
  nextVersion : Nat
  best : PromptCandidate
  evalIdx : Nat
deriving DecidableEq

/-- One round of the evolution loop (lines 918–949): run a generation, then
replace the best-ever candidate only when the new top candidate has strictly
greater fitness. -/
def evolutionStep (evalFitness : Nat → ℚ) (offspringOf : Nat → Nat → OffspringDraw)
    (populationSize eliteCount : Nat) (generation : Nat) (s : OptState) : OptState :=
  let r := runGeneration evalFitness (offspringOf generation) s.population
    populationSize eliteCount generation s.nextVersion s.evalIdx
  let best :=
    match r.newPopulation.head? with
    | some top => if s.best.fitness < top.fitness then top else s.best
    | none => s.best
  { population := r.newPopulation, nextVersion := r.nextVersion
    best := best, evalIdx := s.evalIdx + r.evaluationsRun }

/-- Evolution loop for the remaining number of generations, starting at the
given generation index. -/
def runEvolutionFrom (evalFitness : Nat → ℚ)
    (offspringOf : Nat → Nat → OffspringDraw) (populationSize eliteCount : Nat) :
    Nat → Nat → OptState → OptState
  | _, 0, s => s
  | gen, r + 1, s =>
    runEvolutionFrom evalFitness offspringOf populationSize eliteCount
      (gen + 1) r
      (evolutionStep evalFitness offspringOf populationSize eliteCount gen s)

/-- initializePopulation from session-store.ts (lines 688–716): the seed with
its own version, then populationSize - 1 mutations with consecutive fresh
versions; the returned nextVersion is baseVersion + 1 advanced once per
mutation. -/
def initializePopulation (mutationOf : Nat → String) (baseContent : String)
    (baseVersion populationSize : Nat) : List PromptCandidate × Nat :=
  let mutants := (List.range (populationSize - 1)).map (fun i =>
    createCandidate (mutationOf i) (baseVersion + 1 + i) 0 none)
  (createCandidate baseContent baseVersion 0 none :: mutants,
   baseVersion + 1 + (populationSize - 1))

/-- runPromptOptimization core from session-store.ts (lines 864–964) after the
base prompt has been fetched: initialize and evaluate the population, sort it,
take the head as the initial best-ever candidate (none models the thrown "No
candidates in population"), then run the evolution loop for the configured
generations.  The final state's best is the candidate passed to
saveBestPrompt. -/
def runPromptOptimization (evalFitness : Nat → ℚ) (mutationOf : Nat → String)
    (offspringOf : Nat → Nat → OffspringDraw) (baseContent : String)
    (baseVersion populationSize eliteCount generations : Nat) : Option OptState :=
  let init := initializePopulation mutationOf baseContent baseVersion populationSize
  let evaluated := evaluatePopulation evalFitness init.1 0 0
  let sorted := sortByFitness evaluated.1
  match sorted.head? with
  | none => none
  | some first =>
    some (runEvolutionFrom evalFitness offspringOf populationSize eliteCount
      1 generations
      { population := sorted, nextVersion := init.2
        best := first, evalIdx := evaluated.2 })

/-- Version carried by the prompt row saveBestPrompt (lines 676–685) inserts
at the end of a run. -/
def savedBestVersion (result : Option OptState) : Option Nat :=
  result.map (fun st => st.best.version)

end Optimizer

namespace SessionStore

/-- RankingChange as described by the spec data model (§3). -/
structure RankingChange where
  leadId : String
  fullName : String
  company : String
  oldRank : Option Int
  newRank : Option Int
deriving DecidableEq

/-- Modelled from the spec: the session-store variant that exports
hasPendingOptimization, setSessionRankingChanges and clearing behaviour — the
one the ranking orchestrator in part_011 imports — is not present under src/
(the session-store.ts snapshot there predates it and lacks the pending flag
and ranking-change list entirely).  SessionState follows §3 of the spec:
batch ids, an optional optimized-prompt override, the pending-optimization
flag, and the optional ranking-change list. -/
structure SessionState where
  aiBatchIds : List String
  optimizedPrompt : Option String
  pendingOptimization : Bool
  rankingChanges : Option (List RankingChange)
deriving DecidableEq

def emptySession : SessionState :=
  { aiBatchIds := [], optimizedPrompt := none
    pendingOptimization := false, rankingChanges := none }

/-- Session map keyed by session id (created lazily on first reference). -/
abbrev SessionMap := List (String × SessionState)

def getSession (m : SessionMap) (sessionId : String) : SessionState :=
  (m.lookup sessionId).getD emptySession

/-- Store a session state under its id, replacing any previous entry. -/
def setSession (m : SessionMap) (sessionId : String) (s : SessionState) : SessionMap :=
  match m with
  | [] => [(sessionId, s)]
  | (k, v) :: rest =>
    if k = sessionId then (k, s) :: rest
    else (k, v) :: setSession rest sessionId s

/-- Modelled from the spec (§4.6): "set/get an optimized-prompt override
(setting also raises the pending flag and clears any stale ranking-change
list)"; an undefined session id is a no-op as in the src/ snapshot. -/
def setSessionOptimizedPrompt (m : SessionMap) (sessionId : Option String)
    (prompt : String) : SessionMap :=
  match sessionId with
  | none => m
  | some sid =>
    setSession m sid
      { getSession m sid with
        optimizedPrompt := some prompt
        pendingOptimization := true
        rankingChanges := none }

def getSessionOptimizedPrompt (m : SessionMap) (sessionId : Option String) :
    Option String :=
  match sessionId with
  | none => none
  | some sid => (getSession m sid).optimizedPrompt

/-- Modelled from the spec (§4.6): "query/clear the pending flag". -/
def hasPendingOptimization (m : SessionMap) (sessionId : Option String) : Bool :=
  match sessionId with
  | none => false
  | some sid => (getSession m sid).pendingOptimization

/-- Modelled from the spec (§4.6): "set/get ranking changes". -/
def getSessionRankingChanges (m : SessionMap) (sessionId : Option String) :
    Option (List RankingChange) :=
  match sessionId with
  | none => none
  | some sid => (getSession m sid).rankingChanges

end SessionStore

/-! ## Concrete oracle instances used to evaluate the definitions -/

/-- Decoder instance matching JSON.parse on the response below: the brace span
of cexResponse is the whole string, and JSON.parse of it yields an object
whose rankings array holds one entry with leadId "a". -/
def cexDecode : String → Option Json := fun _ =>
  some (Json.obj [("rankings", Json.arr [Json.obj [("leadId", Json.str "a")]])])

def cexResponse : String := "\x7b\"rankings\":[\x7b\"leadId\":\"a\"\x7d]\x7d"

/-- Decoder instance modelling a JSON.parse failure on every span. -/
def failDecode : String → Option Json := fun _ => none

/-- Decoder instance matching JSON.parse on the response below: a rankings
array whose single entry is null. -/
def nullItemDecode : String → Option Json := fun _ =>
  some (Json.obj [("rankings", Json.arr [Json.null])])

def nullItemResponse : String := "\x7b\"rankings\":[null]\x7d"

/-- Evaluation oracle returning fitness 0 on every call. -/
def zeroEval : Nat → ℚ := fun _ => 0

/-- Evaluation oracle giving fitness 1 to the fourth evaluatePrompt call (the
single generation-1 offspring below) and 0 to every other call. -/
def offspringWinsEval : Nat → ℚ := fun n => if n = 3 then 1 else 0

/-- Initial-mutation oracle returning a fixed mutated content. -/
def fixedMutation : Nat → String := fun _ => "seed variation"

/-- Offspring oracle: every offspring is a crossover child (no quick
evaluation) with a fixed content and no recorded parent version. -/
def fixedOffspring : Nat → Nat → Optimizer.OffspringDraw :=
  fun _ _ => { content := "offspring", parentVersion := none, usedMutation := false }

/-- Prompts table holding only the active base prompt, version 1. -/
def promptTable0 : List Ranking.PromptRow :=
  [{ version := 1, content := "base", isActive := true }]

/-- Sample lead used to evaluate concrete instances. -/
def sampleLead : Ranking.LeadForRanking :=
  { id := "x", firstName := "f", lastName := "l", jobTitle := "t"
    accountName := "c", employeeRange := none, industry := none }

/-- Random oracle always drawing 0. -/
def zeroRand : Nat → ℚ := fun _ => 0

/-- Sample prompt candidate used to evaluate concrete instances. -/
def sampleCandidate : Optimizer.PromptCandidate :=
  { content := "p", version := 1, fitness := 0, generation := 0
    parentVersion := none }

/-! # Theorems -/

/-! ## Session store (claim C9) -/

theorem getSession_setSession (m : SessionStore.SessionMap) (sid : String)
    (s : SessionStore.SessionState) :
    SessionStore.getSession (SessionStore.setSession m sid s) sid = s := by
  induction m with
  | nil => simp [SessionStore.setSession, SessionStore.getSession, List.lookup]
  | cons kv rest ih =>
    obtain ⟨k, v⟩ := kv
    by_cases h : k = sid
    · simp [SessionStore.setSession, SessionStore.getSession, List.lookup, h]
    · have h2 : (sid == k) = false := by
        simp only [beq_eq_false_iff_ne]
        exact fun e => h e.symm
      simpa [SessionStore.setSession, SessionStore.getSession, List.lookup, h, h2]
        using ih

/-- C9: setting a session's optimized-prompt override (for a defined session
id) stores the override, raises the pending-optimization flag and clears any
previously stored ranking-change list. -/
theorem claim9_session_override_side_effects (m : SessionStore.SessionMap)
    (sid : String) (prompt : String) :
    SessionStore.getSessionOptimizedPrompt
        (SessionStore.setSessionOptimizedPrompt m (some sid) prompt) (some sid)
      = some prompt
    ∧ SessionStore.hasPendingOptimization
        (SessionStore.setSessionOptimizedPrompt m (some sid) prompt) (some sid) = true
    ∧ SessionStore.getSessionRankingChanges
        (SessionStore.setSessionOptimizedPrompt m (some sid) prompt) (some sid)
      = none := by
  refine ⟨?_, ?_, ?_⟩ <;>
    simp [SessionStore.getSessionOptimizedPrompt, SessionStore.hasPendingOptimization,
      SessionStore.getSessionRankingChanges, SessionStore.setSessionOptimizedPrompt,
      getSession_setSession]

/-! ## Fitness scorer (claim C2) -/

/-- C2: the per-prediction score is 0 when exactly one of predicted and
expected rank is null, 1 when both are null, and 1 - |predicted - expected|/9
when both are non-null (unclamped, hence negative for an out-of-range
prediction such as 20 against 1); the overall fitness is the arithmetic mean
of the per-prediction scores and is 0 for an empty prediction list. -/
theorem claim2_fitness_scorer :
    (∀ p : Int, Optimizer.scorePrediction (some p) none = 0)
    ∧ (∀ a : Int, Optimizer.scorePrediction none (some a) = 0)
    ∧ Optimizer.scorePrediction none none = 1
    ∧ (∀ p a : Int, Optimizer.scorePrediction (some p) (some a)
        = 1 - |(p : ℚ) - (a : ℚ)| / 9)
    ∧ Optimizer.scorePrediction (some 20) (some 1) < 0
    ∧ Optimizer.calculateFitness [] = 0
    ∧ (∀ preds : List Optimizer.Prediction, preds ≠ [] →
        Optimizer.calculateFitness preds
          = ((preds.map (fun p => Optimizer.scorePrediction p.predicted p.actual)).sum)
              / (preds.length : ℚ)) := by
  refine ⟨?_, ?_, ?_, ?_, ?_, ?_, ?_⟩
  · intro p; simp [Optimizer.scorePrediction]
  · intro a; simp [Optimizer.scorePrediction]
  · simp [Optimizer.scorePrediction]
  · intro p a; simp [Optimizer.scorePrediction]
  · norm_num [Optimizer.scorePrediction, abs_sub_lt_iff]
  · simp [Optimizer.calculateFitness]
  · intro preds h
    have : preds.length ≠ 0 := fun hl => h (List.length_eq_zero.mp hl)
    simp [Optimizer.calculateFitness, this]

theorem claim2_fitness_scorer_witness :
    (([{ predicted := some 1, actual := some 1 }] : List Optimizer.Prediction) ≠ [])
    ∧ Optimizer.calculateFitness [{ predicted := some 1, actual := some 1 }]
      = ((([{ predicted := some 1, actual := some 1 }] :
            List Optimizer.Prediction).map
            (fun p => Optimizer.scorePrediction p.predicted p.actual)).sum)
          / ((([{ predicted := some 1, actual := some 1 }] :
              List Optimizer.Prediction).length : ℚ)) :=
  ⟨by simp, claim2_fitness_scorer.2.2.2.2.2.2 _ (by simp)⟩

/-! ## Token budget (claim C7) -/

/-- C7: the chat call for a company group of n leads is made with a token
budget of exactly max(4096, 400 + 220 × n): 4096 for groups of at most 16
leads, 400 + 220 × n from 17 leads up. -/
theorem claim7_token_budget (companyLeads : List Ranking.LeadForRanking) :
    (Ranking.rankLeadsBatchOptions companyLeads).maxTokens
        = max 4096 (400 + 220 * companyLeads.length)
    ∧ (companyLeads.length ≤ 16 →
        (Ranking.rankLeadsBatchOptions companyLeads).maxTokens = 4096)
    ∧ (17 ≤ companyLeads.length →
        (Ranking.rankLeadsBatchOptions companyLeads).maxTokens
          = 400 + 220 * companyLeads.length) := by
  refine ⟨?_, ?_, ?_⟩ <;> simp [Ranking.rankLeadsBatchOptions] <;> omega

theorem claim7_token_budget_witness :
    17 ≤ (List.replicate 17 sampleLead).length
    ∧ (Ranking.rankLeadsBatchOptions (List.replicate 17 sampleLead)).maxTokens
      = 400 + 220 * (List.replicate 17 sampleLead).length :=
  ⟨by simp, (claim7_token_budget _).2.2 (by simp)⟩

/-! ## Prompt selection (claim C8) -/

/-- C8: with a session override, selectPromptForRanking returns the override
text with the canonical prompt's version; with no override it returns the
active prompt unchanged. -/
theorem claim8_select_prompt_for_ranking (activePrompt : Ranking.ActivePrompt)
    (override : String) :
    Ranking.selectPromptForRanking activePrompt (some override)
        = { content := override, version := activePrompt.version }
    ∧ Ranking.selectPromptForRanking activePrompt none = activePrompt := by
  constructor
  · rfl
  · cases activePrompt; rfl

/-! ## Ranking orchestrator resilience (claim C5) -/

theorem upsertGroup_sizes (gs : List (String × List Ranking.LeadForRanking))
    (name : String) (lead : Ranking.LeadForRanking) :
    Ranking.groupSizes (Ranking.upsertGroup gs name lead)
      = Ranking.groupSizes gs + 1 := by
  induction gs with
  | nil => simp [Ranking.upsertGroup, Ranking.groupSizes]
  | cons g rest ih =>
    obtain ⟨k, v⟩ := g
    by_cases h : k = name
    · simp [Ranking.upsertGroup, h, Ranking.groupSizes]
      omega
    · simp only [Ranking.upsertGroup, h, if_false, Ranking.groupSizes,
        List.map_cons, List.sum_cons] at ih ⊢
      omega

theorem groupLeadsByCompany_sizes_aux (l : List Ranking.LeadForRanking) :
    ∀ gs, Ranking.groupSizes
        (l.foldl (fun gs x => Ranking.upsertGroup gs x.accountName x) gs)
      = Ranking.groupSizes gs + l.length := by
  induction l with
  | nil => intro gs; simp
  | cons x rest ih =>
    intro gs
    rw [List.foldl_cons, ih, upsertGroup_sizes]
    simp only [List.length_cons]
    omega

/-- Grouping leads by company preserves the total lead count. -/
theorem groupLeadsByCompany_sizes (l : List Ranking.LeadForRanking) :
    Ranking.groupSizes (Ranking.groupLeadsByCompany l) = l.length := by
  have h := groupLeadsByCompany_sizes_aux l []
  simpa [Ranking.groupLeadsByCompany, Ranking.groupSizes] using h

/-- Per-company loop invariant: whatever the per-company outcomes, the loop
finishes with status completed, no current company, the completed counter
advanced by every group's size, and total untouched. -/
theorem runRankingCompanies_spec (outcome : Nat → Ranking.CompanyOutcome)
    (companies : List (String × List Ranking.LeadForRanking)) :
    ∀ i p, (Ranking.runRankingCompanies outcome companies i p).status
          = Ranking.RunStatus.completed
      ∧ (Ranking.runRankingCompanies outcome companies i p).completed
          = p.completed + Ranking.groupSizes companies
      ∧ (Ranking.runRankingCompanies outcome companies i p).total = p.total
      ∧ (Ranking.runRankingCompanies outcome companies i p).currentCompany
          = none := by
  induction companies with
  | nil =>
    intro i p
    simp [Ranking.runRankingCompanies, Ranking.groupSizes]
  | cons c rest ih =>
    intro i p
    obtain ⟨name, ls⟩ := c
    have hp : (Ranking.processCompany (outcome i) ls).1 = ls.length := by
      cases outcome i <;> rfl
    simp only [Ranking.runRankingCompanies]
    obtain ⟨h1, h2, h3, h4⟩ := ih (i + 1)
      { total := p.total
        completed := p.completed + (Ranking.processCompany (outcome i) ls).1
        currentCompany := some name, status := p.status, error := p.error }
    refine ⟨h1, ?_, h3, h4⟩
    rw [h2, hp]
    simp only [Ranking.groupSizes, List.map_cons, List.sum_cons]
    omega

/-- C5: a company group whose LLM call or persistence throws is caught — the
error branch of processCompany still reports the group's full lead count — and
for every combination of per-company outcomes (including any number of
failures) the run processes every group, ends with status completed, and the
completed counter reaches the full lead count. -/
theorem claim5_company_failure_resilience :
    (∀ (e : String) (ls : List Ranking.LeadForRanking),
        Ranking.processCompany (Except.error e) ls = (ls.length, []))
    ∧ ∀ (outcome : Nat → Ranking.CompanyOutcome)
        (allLeads : List Ranking.LeadForRanking),
        (Ranking.runRankingProcess outcome allLeads).status
            = Ranking.RunStatus.completed
        ∧ (Ranking.runRankingProcess outcome allLeads).completed
            = allLeads.length
        ∧ (Ranking.runRankingProcess outcome allLeads).total = allLeads.length := by
  constructor
  · intro e ls; rfl
  · intro outcome allLeads
    obtain ⟨h1, h2, h3, _⟩ := runRankingCompanies_spec outcome
      (Ranking.groupLeadsByCompany allLeads) 0
      { total := allLeads.length, completed := 0, currentCompany := none
        status := .running, error := none }
    refine ⟨?_, ?_, ?_⟩ <;> simp only [Ranking.runRankingProcess]
    · exact h1
    · rw [h2]
      simp [groupLeadsByCompany_sizes]
    · exact h3

/-! ## Malformed responses (claim C6) -/

theorem findIdx_none_of_all_false (p : Char → Bool) :
    ∀ (l : List Char) (i : Nat), (∀ c ∈ l, p c = false) → l.findIdx? p i = none := by
  intro l
  induction l with
  | nil => intro i _; rfl
  | cons a rest ih =>
    intro i h
    have ha : p a = false := h a (List.mem_cons_self a rest)
    rw [List.findIdx?]
    simp only [ha, Bool.false_eq_true, if_false]
    exact ih (i + 1) (fun c hc => h c (List.mem_cons_of_mem a hc))

/-- Response with no opening brace: the regex does not match. -/
theorem braceSpan_eq_none_of_no_openBrace (response : String)
    (h : ¬ response.toList.contains openBrace) : Ranking.braceSpan response = none := by
  have hnone : response.toList.findIdx? (fun c => decide (c = openBrace)) = none := by
    apply findIdx_none_of_all_false
    intro c hc
    simp only [decide_eq_false_iff_not]
    intro he
    exact h (by simpa [he] using List.elem_iff.mpr hc)
  simp only [String.toList] at hnone
  rw [Ranking.braceSpan]
  simp [hnone, String.toList]

/-- Equation for parseRankingResponse when extraction fails. -/
theorem parseRankingResponse_extract_none (decode : String → Option Json)
    (response : String) (leadIds : List String)
    (hext : Ranking.extractJson decode response = none) :
    Ranking.parseRankingResponse decode response leadIds
      = Except.ok (leadIds.map (fun id =>
          Ranking.createFailedResult id "No JSON found in response")) := by
  rw [Ranking.parseRankingResponse, hext]

/-- Equation for parseRankingResponse when the rankings access succeeds but
yields no array. -/
theorem parseRankingResponse_no_rankings (decode : String → Option Json)
    (response : String) (leadIds : List String) (parsed : Json)
    (v : Option Json)
    (hparsed : Ranking.extractJson decode response = some parsed)
    (hok : jsGet parsed "rankings" = Except.ok v)
    (hnoarr : ∀ items, v ≠ some (Json.arr items)) :
    Ranking.parseRankingResponse decode response leadIds
      = Except.ok (leadIds.map (fun id =>
          Ranking.createFailedResult id "Invalid response format")) := by
  rw [Ranking.parseRankingResponse, hparsed]
  dsimp only
  rw [hok]
  cases v with
  | none => rfl
  | some jv =>
    cases jv with
    | arr items => exact absurd rfl (hnoarr items)
    | null => rfl
    | bool b => rfl
    | num n => rfl
    | str s => rfl
    | obj fs => rfl

/-- Equation for parseRankingResponse when the rankings access throws (a null
payload): the TypeError propagates. -/
theorem parseRankingResponse_rankings_throw (decode : String → Option Json)
    (response : String) (leadIds : List String) (parsed : Json) (e : String)
    (hparsed : Ranking.extractJson decode response = some parsed)
    (he : jsGet parsed "rankings" = Except.error e) :
    Ranking.parseRankingResponse decode response leadIds = Except.error e := by
  rw [Ranking.parseRankingResponse, hparsed]
  dsimp only
  rw [he]

/-- Equation for parseRankingResponse when the item loop throws (a null
entry in the rankings array): the TypeError propagates. -/
theorem parseRankingResponse_items_throw (decode : String → Option Json)
    (response : String) (leadIds : List String) (parsed : Json)
    (items : List Json) (e : String)
    (hparsed : Ranking.extractJson decode response = some parsed)
    (harr : jsGet parsed "rankings" = Except.ok (some (Json.arr items)))
    (hitems : Ranking.parseItems items leadIds [] = Except.error e) :
    Ranking.parseRankingResponse decode response leadIds = Except.error e := by
  rw [Ranking.parseRankingResponse, hparsed]
  dsimp only
  rw [harr]
  dsimp only
  rw [hitems]

/-- Equation for parseRankingResponse when the payload has a rankings array
and the item loop does not throw. -/
theorem parseRankingResponse_rankings (decode : String → Option Json)
    (response : String) (leadIds : List String) (parsed : Json)
    (items : List Json) (out : List Ranking.RankingResult × List String)
    (hparsed : Ranking.extractJson decode response = some parsed)
    (harr : jsGet parsed "rankings" = Except.ok (some (Json.arr items)))
    (hitems : Ranking.parseItems items leadIds [] = Except.ok out) :
    Ranking.parseRankingResponse decode response leadIds
      = Except.ok (out.1
          ++ (leadIds.filter (fun id => !out.2.contains id)).map
              (fun id =>
                Ranking.createFailedResult id
                  "Failed to parse ranking from AI response")) := by
  rw [Ranking.parseRankingResponse, hparsed]
  dsimp only
  rw [harr]
  dsimp only
  rw [hitems]

/-- C6: for a malformed response — no opening brace, a brace span that fails
to decode, or a decoded payload without a rankings array — every returned
result has a null rank and one of the two diagnostic reasoning strings (when
the payload is the JSON literal null, the rankings access itself throws and
no results are returned at all). -/
theorem claim6_malformed_response (decode : String → Option Json)
    (response : String) (leadIds : List String)
    (h : ¬ response.toList.contains openBrace
        ∨ Ranking.extractJson decode response = none
        ∨ ∃ parsed, Ranking.extractJson decode response = some parsed
            ∧ ∀ items, jsGet parsed "rankings" ≠ Except.ok (some (Json.arr items))) :
    ∀ l, Ranking.parseRankingResponse decode response leadIds = Except.ok l →
      ∀ r ∈ l, r.rank = none
        ∧ (r.reasoning = "No JSON found in response"
           ∨ r.reasoning = "Invalid response format") := by
  have hext : Ranking.extractJson decode response = none
      ∨ ∃ parsed, Ranking.extractJson decode response = some parsed
          ∧ ∀ items, jsGet parsed "rankings" ≠ Except.ok (some (Json.arr items)) := by
    rcases h with h | h | h
    · left
      rw [Ranking.extractJson, braceSpan_eq_none_of_no_openBrace response h]
      rfl
    · exact Or.inl h
    · exact Or.inr h
  intro l hl r hr
  rcases hext with hext | ⟨parsed, hparsed, hnoarr⟩
  · rw [parseRankingResponse_extract_none decode response leadIds hext] at hl
    have hmap := Except.ok.inj hl
    subst hmap
    obtain ⟨id, _, rfl⟩ := List.mem_map.mp hr
    exact ⟨rfl, Or.inl rfl⟩
  · cases hj : jsGet parsed "rankings" with
    | error e =>
      rw [parseRankingResponse_rankings_throw decode response leadIds parsed e
        hparsed hj] at hl
      simp at hl
    | ok v =>
      have hnoarr2 : ∀ items, v ≠ some (Json.arr items) := by
        intro items hv
        exact hnoarr items (by rw [hj, hv])
      rw [parseRankingResponse_no_rankings decode response leadIds parsed v
        hparsed hj hnoarr2] at hl
      have hmap := Except.ok.inj hl
      subst hmap
      obtain ⟨id, _, rfl⟩ := List.mem_map.mp hr
      exact ⟨rfl, Or.inr rfl⟩

/-! ## Parser shape (claim C1) -/

theorem contains_iff (l : List String) (a : String) : l.contains a = true ↔ a ∈ l :=
  List.elem_iff

theorem contains_eq_false_iff (l : List String) (a : String) :
    l.contains a = false ↔ a ∉ l := by
  constructor
  · intro h hm
    rw [(contains_iff l a).mpr hm] at h
    cases h
  · intro h
    cases hc : l.contains a
    · rfl
    · exact absurd ((contains_iff l a).mp hc) h

/-- Processed-set tracking: when the parse loop does not throw, the processed
set it returns is exactly the kept leadIds (most recent first) on top of the
incoming set. -/
theorem parseItems_processed (items : List Json) (L : List String) :
    ∀ P out, Ranking.parseItems items L P = Except.ok out →
      out.2 = (out.1.map (fun r => r.leadId)).reverse ++ P := by
  induction items with
  | nil =>
    intro P out hout
    rw [Ranking.parseItems] at hout
    have h := Except.ok.inj hout
    rw [← h]
    simp
  | cons item rest ih =>
    intro P out hout
    rw [Ranking.parseItems] at hout
    revert hout
    cases hpi : Ranking.parseRankingItem item with
    | error e => intro hout; simp at hout
    | ok o =>
      cases o with
      | none => intro hout; exact ih P out hout
      | some raw =>
        dsimp only
        cases raw.leadId with
        | str lid =>
          dsimp only
          by_cases hcond : (L.contains lid && !P.contains lid) = true
          · rw [if_pos hcond]
            cases hrec : Ranking.parseItems rest L (lid :: P) with
            | error e => intro hout; simp at hout
            | ok out2 =>
              intro hout
              have h := Except.ok.inj hout
              rw [← h]
              rw [ih (lid :: P) out2 hrec]
              simp
          · rw [if_neg hcond]
            intro hout
            exact ih P out hout
        | null => intro hout; exact ih P out hout
        | bool b => intro hout; exact ih P out hout
        | num n => intro hout; exact ih P out hout
        | arr xs => intro hout; exact ih P out hout
        | obj fs => intro hout; exact ih P out hout

/-- Every kept result's leadId is a requested id outside the incoming
processed set. -/
theorem parseItems_mem (items : List Json) (L : List String) :
    ∀ P out, Ranking.parseItems items L P = Except.ok out →
      ∀ r ∈ out.1, r.leadId ∈ L ∧ r.leadId ∉ P := by
  induction items with
  | nil =>
    intro P out hout r hr
    rw [Ranking.parseItems] at hout
    have h := Except.ok.inj hout
    rw [← h] at hr
    simp at hr
  | cons item rest ih =>
    intro P out hout
    rw [Ranking.parseItems] at hout
    revert hout
    cases hpi : Ranking.parseRankingItem item with
    | error e => intro hout; simp at hout
    | ok o =>
      cases o with
      | none => intro hout; exact ih P out hout
      | some raw =>
        dsimp only
        cases raw.leadId with
        | str lid =>
          dsimp only
          by_cases hcond : (L.contains lid && !P.contains lid) = true
          · rw [if_pos hcond]
            cases hrec : Ranking.parseItems rest L (lid :: P) with
            | error e => intro hout; simp at hout
            | ok out2 =>
              intro hout r hr
              have h := Except.ok.inj hout
              rw [← h] at hr
              have hLP : lid ∈ L ∧ lid ∉ P := by
                have h2 := hcond
                simp only [Bool.and_eq_true, Bool.not_eq_true'] at h2
                exact ⟨(contains_iff L lid).mp h2.1,
                  (contains_eq_false_iff P lid).mp h2.2⟩
              rcases List.mem_cons.mp hr with rfl | htail
              · exact hLP
              · obtain ⟨h1, h2⟩ := ih (lid :: P) out2 hrec r htail
                exact ⟨h1, fun hmem => h2 (List.mem_cons_of_mem lid hmem)⟩
          · rw [if_neg hcond]
            intro hout
            exact ih P out hout
        | null => intro hout; exact ih P out hout
        | bool b => intro hout; exact ih P out hout
        | num n => intro hout; exact ih P out hout
        | arr xs => intro hout; exact ih P out hout
        | obj fs => intro hout; exact ih P out hout

/-- The processed set stays duplicate-free. -/
theorem parseItems_processed_nodup (items : List Json) (L : List String) :
    ∀ P out, P.Nodup → Ranking.parseItems items L P = Except.ok out →
      out.2.Nodup := by
  induction items with
  | nil =>
    intro P out hP hout
    rw [Ranking.parseItems] at hout
    have h := Except.ok.inj hout
    rw [← h]
    exact hP
  | cons item rest ih =>
    intro P out hP hout
    rw [Ranking.parseItems] at hout
    revert hout
    cases hpi : Ranking.parseRankingItem item with
    | error e => intro hout; simp at hout
    | ok o =>
      cases o with
      | none => intro hout; exact ih P out hP hout
      | some raw =>
        dsimp only
        cases raw.leadId with
        | str lid =>
          dsimp only
          by_cases hcond : (L.contains lid && !P.contains lid) = true
          · rw [if_pos hcond]
            cases hrec : Ranking.parseItems rest L (lid :: P) with
            | error e => intro hout; simp at hout
            | ok out2 =>
              intro hout
              have h := Except.ok.inj hout
              rw [← h]
              have hlP : (lid :: P).Nodup := by
                refine List.nodup_cons.mpr ⟨?_, hP⟩
                simp only [Bool.and_eq_true, Bool.not_eq_true'] at hcond
                exact (contains_eq_false_iff P lid).mp hcond.2
              exact ih (lid :: P) out2 hlP hrec
          · rw [if_neg hcond]
            intro hout
            exact ih P out hP hout
        | null => intro hout; exact ih P out hP hout
        | bool b => intro hout; exact ih P out hP hout
        | num n => intro hout; exact ih P out hP hout
        | arr xs => intro hout; exact ih P out hP hout
        | obj fs => intro hout; exact ih P out hP hout

/-- The kept leadIds are duplicate-free (first occurrence per id wins). -/
theorem parseItems_ids_nodup (items : List Json) (L : List String)
    (out : List Ranking.RankingResult × List String)
    (hout : Ranking.parseItems items L [] = Except.ok out) :
    (out.1.map (fun r => r.leadId)).Nodup := by
  have h2 := parseItems_processed_nodup items L [] out List.nodup_nil hout
  rw [parseItems_processed items L [] out hout] at h2
  simpa using h2

/-- Two duplicate-free id lists with the kept ids drawn from the requested
ones: filtering the requested list down to the kept ids is a permutation of
the kept ids. -/
theorem filter_contains_perm (L M : List String) (hL : L.Nodup) (hM : M.Nodup)
    (hsub : ∀ x ∈ M, x ∈ L) :
    List.Perm (L.filter (fun id => M.contains id)) M := by
  apply List.perm_of_nodup_nodup_toFinset_eq (hL.filter _) hM
  ext x
  simp only [List.toFinset_filter, Finset.mem_filter, List.mem_toFinset,
    List.elem_iff, decide_eq_true_eq]
  exact ⟨fun h => h.2, fun h => ⟨hsub x h, h⟩⟩

theorem length_filter_split (L : List String) (p : String → Bool) :
    (L.filter p).length + (L.filter (fun x => !p x)).length = L.length :=
  (List.filter_append_perm p L).length_eq.symm ▸ (List.length_append _ _).symm

/-- C1 (amended): over a duplicate-free requested id list, whenever the
parser returns a result list — it instead throws a TypeError when the decoded
rankings array holds a null entry, or the decoded payload is the literal
null — the list has exactly one result per requested id, each result's leadId
is a requested id, no leadId repeats, and the output splits into the matched
entries followed by the missing ids in input order as failed placeholders. -/
theorem claim1_parser_shape (decode : String → Option Json) (response : String)
    (leadIds : List String) (hnd : leadIds.Nodup) :
    ∀ l, Ranking.parseRankingResponse decode response leadIds = Except.ok l →
      l.length = leadIds.length
      ∧ (∀ r ∈ l, r.leadId ∈ leadIds)
      ∧ (l.map (fun r => r.leadId)).Nodup
      ∧ ∃ matched missingIds reason,
          l = matched ++ missingIds.map
              (fun id => Ranking.createFailedResult id reason)
          ∧ missingIds = leadIds.filter
              (fun id => !(matched.map (fun r => r.leadId)).contains id) := by
  have hfail : ∀ reason : String,
      ((leadIds.map (fun id => Ranking.createFailedResult id reason)).length
          = leadIds.length)
      ∧ (∀ r ∈ leadIds.map (fun id => Ranking.createFailedResult id reason),
          r.leadId ∈ leadIds)
      ∧ ((leadIds.map (fun id => Ranking.createFailedResult id reason)).map
          (fun r => r.leadId)).Nodup
      ∧ ∃ matched missingIds reason2,
          leadIds.map (fun id => Ranking.createFailedResult id reason)
            = matched ++ missingIds.map
                (fun id => Ranking.createFailedResult id reason2)
          ∧ missingIds = leadIds.filter
              (fun id => !(matched.map (fun r => r.leadId)).contains id) := by
    intro reason
    refine ⟨List.length_map _ _, ?_, ?_, [], leadIds, reason, ?_, ?_⟩
    · intro r hr
      obtain ⟨id, hid, rfl⟩ := List.mem_map.mp hr
      exact hid
    · have hcomp : ((fun r => Ranking.RankingResult.leadId r) ∘
          (fun id => Ranking.createFailedResult id reason)) = fun id => id := by
        funext id; rfl
      rw [List.map_map, hcomp]
      simpa using hnd
    · simp
    · symm
      apply List.filter_eq_self.mpr
      intro a _
      simp
  intro l hl
  rcases hext : Ranking.extractJson decode response with _ | parsed
  · rw [parseRankingResponse_extract_none decode response leadIds hext] at hl
    have h := Except.ok.inj hl
    subst h
    exact hfail _
  · cases hj : jsGet parsed "rankings" with
    | error e =>
      rw [parseRankingResponse_rankings_throw decode response leadIds parsed e
        hext hj] at hl
      simp at hl
    | ok v =>
      by_cases harr : ∃ items, v = some (Json.arr items)
      · obtain ⟨items, rfl⟩ := harr
        cases hitems : Ranking.parseItems items leadIds [] with
        | error e =>
          rw [parseRankingResponse_items_throw decode response leadIds parsed
            items e hext hj hitems] at hl
          simp at hl
        | ok out =>
          rw [parseRankingResponse_rankings decode response leadIds parsed
            items out hext hj hitems] at hl
          have h := Except.ok.inj hl
          subst h
          set M := out.1.map (fun r => r.leadId) with hM
          have hMnd : M.Nodup := parseItems_ids_nodup items leadIds out hitems
          have hsub : ∀ x ∈ M, x ∈ leadIds := by
            intro x hx
            obtain ⟨r, hr, rfl⟩ := List.mem_map.mp hx
            exact (parseItems_mem items leadIds [] out hitems r hr).1
          have hproc : out.2 = M.reverse := by
            rw [parseItems_processed items leadIds [] out hitems]
            simp [hM]
          have hfiltcong :
              leadIds.filter (fun id => !out.2.contains id)
                = leadIds.filter (fun id => !M.contains id) := by
            apply List.filter_congr
            intro x _
            rw [hproc]
            by_cases hx : x ∈ M
            · rw [(contains_iff M.reverse x).mpr (List.mem_reverse.mpr hx),
                (contains_iff M x).mpr hx]
            · rw [(contains_eq_false_iff M.reverse x).mpr
                  (fun hc => hx (List.mem_reverse.mp hc)),
                (contains_eq_false_iff M x).mpr hx]
          have hlen_matched : (leadIds.filter (fun id => M.contains id)).length
              = M.length :=
            (filter_contains_perm leadIds M hnd hMnd hsub).length_eq
          have hout1len : out.1.length = M.length := (List.length_map _ _).symm
          refine ⟨?_, ?_, ?_, out.1,
            leadIds.filter (fun id => !out.2.contains id),
            "Failed to parse ranking from AI response", rfl, ?_⟩
          · rw [List.length_append, List.length_map, hfiltcong, hout1len]
            have := length_filter_split leadIds (fun id => M.contains id)
            omega
          · intro r hr
            rcases List.mem_append.mp hr with hr | hr
            · exact (parseItems_mem items leadIds [] out hitems r hr).1
            · obtain ⟨id, hid, rfl⟩ := List.mem_map.mp hr
              exact (List.mem_filter.mp hid).1
          · rw [List.map_append, List.map_map]
            have hcomp : ((fun r => Ranking.RankingResult.leadId r) ∘
                (fun id => Ranking.createFailedResult id
                  "Failed to parse ranking from AI response"))
                = fun id => id := by
              funext id; rfl
            have hmap2 : (leadIds.filter (fun id => !out.2.contains id)).map
                ((fun r => Ranking.RankingResult.leadId r) ∘
                  (fun id => Ranking.createFailedResult id
                    "Failed to parse ranking from AI response"))
                = leadIds.filter (fun id => !out.2.contains id) := by
              rw [hcomp]
              simp
            rw [hmap2, hfiltcong]
            apply List.Nodup.append hMnd (hnd.filter _)
            intro a haM hafilt
            have h2 := (List.mem_filter.mp hafilt).2
            rw [(contains_iff M a).mpr haM] at h2
            simp at h2
          · rw [hfiltcong]
      · have hnoarr2 : ∀ items, v ≠ some (Json.arr items) := by
          intro items hv
          exact harr ⟨items, hv⟩
        rw [parseRankingResponse_no_rankings decode response leadIds parsed v
          hext hj hnoarr2] at hl
        have h := Except.ok.inj hl
        subst h
        exact hfail _

theorem claim1_parser_shape_witness :
    (["a", "b"] : List String).Nodup
    ∧ ([{ leadId := "a", rank := some JsNum.nan, reasoning := "" },
        Ranking.createFailedResult "b" "Failed to parse ranking from AI response"]
          : List Ranking.RankingResult).length
      = (["a", "b"] : List String).length :=
  ⟨by decide,
    (claim1_parser_shape cexDecode cexResponse ["a", "b"] (by decide)
      [{ leadId := "a", rank := some JsNum.nan, reasoning := "" },
       Ranking.createFailedResult "b" "Failed to parse ranking from AI response"]
      rfl).1⟩

/-- C1 as stated fails in two ways.  With a duplicate requested id list
["a", "a"] and a response whose decoded payload ranks "a", the parser returns
one result, not two.  With the well-formed response whose rankings array
holds a null entry, the item.leadId access throws a TypeError, so the parser
returns no results at all instead of one per requested id. -/
theorem claim1_counterexample :
    (¬ ∃ l, Ranking.parseRankingResponse cexDecode cexResponse ["a", "a"]
          = Except.ok l ∧ l.length = (["a", "a"] : List String).length)
    ∧ ¬ ∃ l, Ranking.parseRankingResponse nullItemDecode nullItemResponse ["a"]
          = Except.ok l := by
  constructor
  · rintro ⟨l, hl, hlen⟩
    have he : Ranking.parseRankingResponse cexDecode cexResponse ["a", "a"]
        = Except.ok [{ leadId := "a", rank := some JsNum.nan, reasoning := "" }] :=
      rfl
    rw [he] at hl
    have h := Except.ok.inj hl
    subst h
    simp at hlen
  · rintro ⟨l, hl⟩
    have he : Ranking.parseRankingResponse nullItemDecode nullItemResponse ["a"]
        = Except.error "TypeError: cannot read properties of null" := rfl
    rw [he] at hl
    simp at hl

/-! ## Tournament selection (claim C10) -/

theorem tournamentIndex_lt (rand : Nat → ℚ) (len k : Nat) (hlen : 0 < len)
    (h0 : 0 ≤ rand k) (h1 : rand k < 1) :
    Optimizer.tournamentIndex rand len k < len := by
  rw [Optimizer.tournamentIndex]
  have hlenq : (0 : ℚ) < (len : ℚ) := by exact_mod_cast hlen
  have hmul0 : 0 ≤ rand k * (len : ℚ) := mul_nonneg h0 (le_of_lt hlenq)
  have hmul1 : rand k * (len : ℚ) < (len : ℚ) := by
    calc rand k * (len : ℚ) < 1 * (len : ℚ) := mul_lt_mul_of_pos_right h1 hlenq
    _ = (len : ℚ) := one_mul _
  have hfl : ⌊rand k * (len : ℚ)⌋ < (len : ℤ) :=
    Int.floor_lt.mpr (by exact_mod_cast hmul1)
  have hfl0 : (0 : ℤ) ≤ ⌊rand k * (len : ℚ)⌋ := Int.floor_nonneg.mpr hmul0
  omega

/-- With in-range random draws and a non-empty population, every tournament
draw hits the population, so the collection succeeds. -/
theorem collectDraws_spec (rand : Nat → ℚ)
    (population : List Optimizer.PromptCandidate)
    (hpop : population ≠ []) (hrand : ∀ k, 0 ≤ rand k ∧ rand k < 1)
    (ks : List Nat) :
    ∃ tour, Optimizer.collectDraws rand population ks = some tour
      ∧ tour.length = ks.length ∧ ∀ c ∈ tour, c ∈ population := by
  induction ks with
  | nil => exact ⟨[], rfl, rfl, by simp⟩
  | cons k rest ih =>
    obtain ⟨tour, htour, hlen, hmem⟩ := ih
    have hlt : Optimizer.tournamentIndex rand population.length k
        < population.length :=
      tournamentIndex_lt rand population.length k (List.length_pos.mpr hpop)
        (hrand k).1 (hrand k).2
    obtain ⟨c, hc⟩ : ∃ c,
        population.get? (Optimizer.tournamentIndex rand population.length k)
          = some c :=
      ⟨population.get ⟨_, hlt⟩, List.get?_eq_get hlt⟩
    refine ⟨c :: tour, ?_, by simp [hlen], ?_⟩
    · rw [Optimizer.collectDraws, hc, htour]
    · intro x hx
      rcases List.mem_cons.mp hx with rfl | hx2
      · exact List.get?_mem hc
      · exact hmem x hx2

/-- The reduce of the tournament picks an entry of maximal fitness. -/
theorem foldl_pick_spec (rest : List Optimizer.PromptCandidate) :
    ∀ c : Optimizer.PromptCandidate,
      (rest.foldl (fun best current =>
          if best.fitness < current.fitness then current else best) c) ∈ c :: rest
      ∧ ∀ x ∈ c :: rest,
          x.fitness ≤ (rest.foldl (fun best current =>
            if best.fitness < current.fitness then current else best) c).fitness := by
  induction rest with
  | nil =>
    intro c
    refine ⟨List.mem_cons_self c [], ?_⟩
    intro x hx
    rcases List.mem_cons.mp hx with rfl | hx2
    · exact le_refl _
    · cases hx2
  | cons d rest ih =>
    intro c
    rw [List.foldl_cons]
    obtain ⟨hmem, hmax⟩ := ih (if c.fitness < d.fitness then d else c)
    have hpcd : (if c.fitness < d.fitness then d else c) = c
        ∨ (if c.fitness < d.fitness then d else c) = d := by
      by_cases h : c.fitness < d.fitness
      · rw [if_pos h]; exact Or.inr rfl
      · rw [if_neg h]; exact Or.inl rfl
    have hcp : c.fitness ≤ (if c.fitness < d.fitness then d else c).fitness := by
      by_cases h : c.fitness < d.fitness
      · rw [if_pos h]; exact le_of_lt h
      · rw [if_neg h]
    have hdp : d.fitness ≤ (if c.fitness < d.fitness then d else c).fitness := by
      by_cases h : c.fitness < d.fitness
      · rw [if_pos h]
      · rw [if_neg h]; exact le_of_not_lt h
    have hpres := hmax _ (List.mem_cons_self _ rest)
    constructor
    · rcases List.mem_cons.mp hmem with h | h
      · rcases hpcd with h2 | h2 <;> rw [h, h2] <;> simp
      · exact List.mem_cons_of_mem c (List.mem_cons_of_mem d h)
    · intro x hx
      rcases List.mem_cons.mp hx with rfl | hx2
      · exact le_trans hcp hpres
      · rcases List.mem_cons.mp hx2 with rfl | hx3
        · exact le_trans hdp hpres
        · exact hmax x (List.mem_cons_of_mem _ hx3)

/-- C10: for a non-empty population, tournamentSize ≥ 1 and random draws in
[0, 1), tournamentSelect succeeds (every index is in bounds, so the
"Population is empty" branch is unreachable) and returns a sampled entry of
maximal fitness among the tournamentSize sampled entries, all drawn from the
population. -/
theorem claim10_tournament_select (rand : Nat → ℚ)
    (population : List Optimizer.PromptCandidate) (tournamentSize : Nat)
    (hpop : population ≠ []) (hts : 1 ≤ tournamentSize)
    (hrand : ∀ k, 0 ≤ rand k ∧ rand k < 1) :
    ∃ best tournament,
      Optimizer.collectDraws rand population (List.range tournamentSize)
          = some tournament
      ∧ Optimizer.tournamentSelect rand population tournamentSize = some best
      ∧ best ∈ tournament
      ∧ (∀ c ∈ tournament, c.fitness ≤ best.fitness)
      ∧ (∀ c ∈ tournament, c ∈ population)
      ∧ tournament.length = tournamentSize := by
  obtain ⟨tour, htour, hlen, hmem⟩ :=
    collectDraws_spec rand population hpop hrand (List.range tournamentSize)
  rw [List.length_range] at hlen
  cases tour with
  | nil =>
    exfalso
    rw [List.length_nil] at hlen
    omega
  | cons c rest =>
    obtain ⟨hm, hmax⟩ := foldl_pick_spec rest c
    refine ⟨_, c :: rest, htour, ?_, hm, hmax, hmem, hlen⟩
    rw [Optimizer.tournamentSelect, htour]

theorem claim10_tournament_select_witness :
    ([sampleCandidate] ≠ []) ∧ 1 ≤ 1
    ∧ ∃ best tournament,
        Optimizer.collectDraws zeroRand [sampleCandidate] (List.range 1)
            = some tournament
        ∧ Optimizer.tournamentSelect zeroRand [sampleCandidate] 1 = some best
        ∧ best ∈ tournament
        ∧ (∀ c ∈ tournament, c.fitness ≤ best.fitness)
        ∧ (∀ c ∈ tournament, c ∈ [sampleCandidate])
        ∧ tournament.length = 1 :=
  ⟨by decide, le_refl 1,
    claim10_tournament_select zeroRand [sampleCandidate] 1 (by decide)
      (le_refl 1) (fun k => ⟨le_refl 0, by norm_num [zeroRand]⟩)⟩

/-! ## Elitism and best-fitness monotonicity (claim C3) -/

theorem insertByFitness_perm (c : Optimizer.PromptCandidate)
    (l : List Optimizer.PromptCandidate) :
    List.Perm (Optimizer.insertByFitness c l) (c :: l) := by
  induction l with
  | nil => exact List.Perm.refl _
  | cons d rest ih =>
    rw [Optimizer.insertByFitness]
    by_cases h : d.fitness ≤ c.fitness
    · rw [if_pos h]
    · rw [if_neg h]
      exact (ih.cons d).trans (List.Perm.swap c d rest)

theorem sortByFitness_perm (l : List Optimizer.PromptCandidate) :
    List.Perm (Optimizer.sortByFitness l) l := by
  induction l with
  | nil => exact List.Perm.refl _
  | cons c rest ih =>
    rw [Optimizer.sortByFitness]
    exact (insertByFitness_perm c _).trans (ih.cons c)

theorem insertByFitness_pairwise (c : Optimizer.PromptCandidate)
    (l : List Optimizer.PromptCandidate)
    (h : l.Pairwise (fun a b => b.fitness ≤ a.fitness)) :
    (Optimizer.insertByFitness c l).Pairwise (fun a b => b.fitness ≤ a.fitness) := by
  induction l with
  | nil => simp [Optimizer.insertByFitness]
  | cons d rest ih =>
    obtain ⟨hd, hrest⟩ := List.pairwise_cons.mp h
    rw [Optimizer.insertByFitness]
    by_cases hcd : d.fitness ≤ c.fitness
    · rw [if_pos hcd]
      refine List.pairwise_cons.mpr ⟨?_, h⟩
      intro x hx
      rcases List.mem_cons.mp hx with rfl | hx2
      · exact hcd
      · exact le_trans (hd x hx2) hcd
    · rw [if_neg hcd]
      refine List.pairwise_cons.mpr ⟨?_, ih hrest⟩
      intro x hx
      have hx2 : x ∈ c :: rest := (insertByFitness_perm c rest).mem_iff.mp hx
      rcases List.mem_cons.mp hx2 with rfl | hx3
      · exact le_of_lt (lt_of_not_le hcd)
      · exact hd x hx3

theorem sortByFitness_pairwise (l : List Optimizer.PromptCandidate) :
    (Optimizer.sortByFitness l).Pairwise (fun a b => b.fitness ≤ a.fitness) := by
  induction l with
  | nil => simp [Optimizer.sortByFitness]
  | cons c rest ih =>
    rw [Optimizer.sortByFitness]
    exact insertByFitness_pairwise c _ ih

/-- Head of the descending sort dominates every member of the input. -/
theorem sortByFitness_head_max (l : List Optimizer.PromptCandidate)
    (c : Optimizer.PromptCandidate) (hc : c ∈ l) (x : Optimizer.PromptCandidate)
    (hx : (Optimizer.sortByFitness l).head? = some x) : c.fitness ≤ x.fitness := by
  have hcs : c ∈ Optimizer.sortByFitness l := (sortByFitness_perm l).mem_iff.mpr hc
  have hpw := sortByFitness_pairwise l
  cases hsort : Optimizer.sortByFitness l with
  | nil => rw [hsort] at hcs; cases hcs
  | cons y rest =>
    rw [hsort] at hcs hx hpw
    have hyx : y = x := by
      simpa using hx
    subst hyx
    rcases List.mem_cons.mp hcs with rfl | hcr
    · exact le_refl _
    · exact (List.pairwise_cons.mp hpw).1 c hcr

/-- Evaluation skips exactly the first startFrom entries: a prefix at least
that long passes through untouched. -/
theorem evaluatePopulation_append_skip (f : Nat → ℚ)
    (l1 : List Optimizer.PromptCandidate) :
    ∀ (l2 : List Optimizer.PromptCandidate) (s idx : Nat), l1.length ≤ s →
      (Optimizer.evaluatePopulation f (l1 ++ l2) s idx).1
        = l1 ++ (Optimizer.evaluatePopulation f l2 (s - l1.length) idx).1 := by
  induction l1 with
  | nil => intro l2 s idx _; simp
  | cons c rest ih =>
    intro l2 s idx h
    cases s with
    | zero => simp at h
    | succ s2 =>
      rw [List.cons_append, Optimizer.evaluatePopulation]
      dsimp only
      rw [ih l2 s2 idx (by simpa using h)]
      simp [Nat.succ_sub_succ]

/-- Any fitness-update-invariant property of the input candidates carries to
the evaluated candidates. -/
theorem evaluatePopulation_forall (f : Nat → ℚ)
    (P : Optimizer.PromptCandidate → Prop)
    (hP : ∀ c fit, P c → P { c with fitness := fit }) :
    ∀ (l : List Optimizer.PromptCandidate) (s idx : Nat), (∀ c ∈ l, P c) →
      ∀ c ∈ (Optimizer.evaluatePopulation f l s idx).1, P c := by
  intro l
  induction l with
  | nil => intro s idx _ c hc; simp [Optimizer.evaluatePopulation] at hc
  | cons d rest ih =>
    intro s idx hl c hc
    cases s with
    | zero =>
      rw [Optimizer.evaluatePopulation] at hc
      dsimp only at hc
      rcases List.mem_cons.mp hc with rfl | hc2
      · exact hP d (f idx) (hl d (List.mem_cons_self d rest))
      · exact ih 0 (idx + 1) (fun a ha => hl a (List.mem_cons_of_mem d ha)) c hc2
    | succ s2 =>
      rw [Optimizer.evaluatePopulation] at hc
      dsimp only at hc
      rcases List.mem_cons.mp hc with rfl | hc2
      · exact hl c (List.mem_cons_self c rest)
      · exact ih s2 idx (fun a ha => hl a (List.mem_cons_of_mem d ha)) c hc2

/-- Elites are carried into the new generation with only the generation
field bumped. -/
theorem runGeneration_elites (evalFitness : Nat → ℚ)
    (offspringOf : Nat → Optimizer.OffspringDraw)
    (population : List Optimizer.PromptCandidate)
    (populationSize eliteCount generation nextVersion evalIdx : Nat) :
    ∀ c ∈ population.take eliteCount,
      ({ c with generation := generation } : Optimizer.PromptCandidate)
        ∈ (Optimizer.runGeneration evalFitness offspringOf population
            populationSize eliteCount generation nextVersion
            evalIdx).newPopulation := by
  intro c hc
  rw [Optimizer.runGeneration]
  dsimp only
  apply (sortByFitness_perm _).mem_iff.mpr
  rw [evaluatePopulation_append_skip evalFitness _ _ _ _
    (by rw [List.length_map]; exact List.length_take_le _ _)]
  exact List.mem_append_left _ (List.mem_map.mpr ⟨c, hc, rfl⟩)

/-- The best-ever candidate is replaced only by a strictly fitter one. -/
theorem evolutionStep_best (evalFitness : Nat → ℚ)
    (offspringOf : Nat → Nat → Optimizer.OffspringDraw)
    (populationSize eliteCount gen : Nat) (s : Optimizer.OptState) :
    (Optimizer.evolutionStep evalFitness offspringOf populationSize eliteCount
        gen s).best = s.best
    ∨ s.best.fitness < (Optimizer.evolutionStep evalFitness offspringOf
        populationSize eliteCount gen s).best.fitness := by
  rw [Optimizer.evolutionStep]
  dsimp only
  cases h : (Optimizer.runGeneration evalFitness (offspringOf gen) s.population
      populationSize eliteCount gen s.nextVersion s.evalIdx).newPopulation.head? with
  | none => exact Or.inl rfl
  | some top =>
    dsimp only
    by_cases hlt : s.best.fitness < top.fitness
    · rw [if_pos hlt]
      exact Or.inr hlt
    · rw [if_neg hlt]
      exact Or.inl rfl

theorem evolutionStep_best_mono (evalFitness : Nat → ℚ)
    (offspringOf : Nat → Nat → Optimizer.OffspringDraw)
    (populationSize eliteCount gen : Nat) (s : Optimizer.OptState) :
    s.best.fitness ≤ (Optimizer.evolutionStep evalFitness offspringOf
        populationSize eliteCount gen s).best.fitness := by
  rcases evolutionStep_best evalFitness offspringOf populationSize eliteCount gen s
    with h | h
  · rw [h]
  · exact le_of_lt h

/-- The reported best fitness never decreases across generations. -/
theorem runEvolutionFrom_best_mono (evalFitness : Nat → ℚ)
    (offspringOf : Nat → Nat → Optimizer.OffspringDraw)
    (populationSize eliteCount : Nat) :
    ∀ (r gen : Nat) (s : Optimizer.OptState),
      s.best.fitness ≤ (Optimizer.runEvolutionFrom evalFitness offspringOf
          populationSize eliteCount gen r s).best.fitness := by
  intro r
  induction r with
  | zero => intro gen s; exact le_refl _
  | succ r2 ih =>
    intro gen s
    rw [Optimizer.runEvolutionFrom]
    exact le_trans
      (evolutionStep_best_mono evalFitness offspringOf populationSize eliteCount gen s)
      (ih (gen + 1) _)

/-- Shape of runPromptOptimization once the sorted evaluated population is
known to be non-empty. -/
theorem runPromptOptimization_eq (evalFitness : Nat → ℚ) (mutationOf : Nat → String)
    (offspringOf : Nat → Nat → Optimizer.OffspringDraw) (baseContent : String)
    (baseVersion populationSize eliteCount generations : Nat)
    (first : Optimizer.PromptCandidate) (rest : List Optimizer.PromptCandidate)
    (hS : Optimizer.sortByFitness
        (Optimizer.evaluatePopulation evalFitness
          (Optimizer.initializePopulation mutationOf baseContent baseVersion
            populationSize).1 0 0).1 = first :: rest) :
    Optimizer.runPromptOptimization evalFitness mutationOf offspringOf baseContent
        baseVersion populationSize eliteCount generations
      = some (Optimizer.runEvolutionFrom evalFitness offspringOf populationSize
          eliteCount 1 generations
          { population := first :: rest
            nextVersion := (Optimizer.initializePopulation mutationOf baseContent
              baseVersion populationSize).2
            best := first
            evalIdx := (Optimizer.evaluatePopulation evalFitness
              (Optimizer.initializePopulation mutationOf baseContent baseVersion
                populationSize).1 0 0).2 }) := by
  rw [Optimizer.runPromptOptimization, hS]
  rfl

/-- C3: elites carry over with fitness and content preserved (only the
generation bumped); the best-ever candidate changes only to a strictly fitter
one; the reported best fitness never decreases across generations; and after
any number of generations the best fitness is at least the generation-0
seed's evaluated fitness (the fitness returned by the run's first
evaluatePrompt call). -/
theorem claim3_elitism_and_monotonicity :
    (∀ (evalFitness : Nat → ℚ) (offspringOf : Nat → Optimizer.OffspringDraw)
        (population : List Optimizer.PromptCandidate)
        (populationSize eliteCount generation nextVersion evalIdx : Nat),
        ∀ c ∈ population.take eliteCount,
          ({ c with generation := generation } : Optimizer.PromptCandidate)
            ∈ (Optimizer.runGeneration evalFitness offspringOf population
                populationSize eliteCount generation nextVersion
                evalIdx).newPopulation)
    ∧ (∀ (evalFitness : Nat → ℚ) (offspringOf : Nat → Nat → Optimizer.OffspringDraw)
        (populationSize eliteCount gen : Nat) (s : Optimizer.OptState),
        (Optimizer.evolutionStep evalFitness offspringOf populationSize eliteCount
            gen s).best = s.best
        ∨ s.best.fitness < (Optimizer.evolutionStep evalFitness offspringOf
            populationSize eliteCount gen s).best.fitness)
    ∧ (∀ (evalFitness : Nat → ℚ) (offspringOf : Nat → Nat → Optimizer.OffspringDraw)
        (populationSize eliteCount r gen : Nat) (s : Optimizer.OptState),
        s.best.fitness ≤ (Optimizer.runEvolutionFrom evalFitness offspringOf
            populationSize eliteCount gen r s).best.fitness)
    ∧ (∀ (evalFitness : Nat → ℚ) (mutationOf : Nat → String)
        (offspringOf : Nat → Nat → Optimizer.OffspringDraw) (baseContent : String)
        (baseVersion populationSize eliteCount generations : Nat),
        ∃ st, Optimizer.runPromptOptimization evalFitness mutationOf offspringOf
            baseContent baseVersion populationSize eliteCount generations = some st
          ∧ evalFitness 0 ≤ st.best.fitness) := by
  refine ⟨runGeneration_elites, evolutionStep_best, ?_, ?_⟩
  · intro evalFitness offspringOf populationSize eliteCount r gen s
    exact runEvolutionFrom_best_mono evalFitness offspringOf populationSize
      eliteCount r gen s
  · intro evalFitness mutationOf offspringOf baseContent baseVersion
      populationSize eliteCount generations
    have hE : (Optimizer.evaluatePopulation evalFitness
        (Optimizer.initializePopulation mutationOf baseContent baseVersion
          populationSize).1 0 0).1
        = ({ Optimizer.createCandidate baseContent baseVersion 0 none with
              fitness := evalFitness 0 })
          :: (Optimizer.evaluatePopulation evalFitness
              ((List.range (populationSize - 1)).map (fun i =>
                Optimizer.createCandidate (mutationOf i) (baseVersion + 1 + i) 0
                  none)) 0 1).1 := rfl
    have hlen : (Optimizer.sortByFitness
        (Optimizer.evaluatePopulation evalFitness
          (Optimizer.initializePopulation mutationOf baseContent baseVersion
            populationSize).1 0 0).1).length ≠ 0 := by
      rw [(sortByFitness_perm _).length_eq, hE]
      simp
    cases hS : Optimizer.sortByFitness
        (Optimizer.evaluatePopulation evalFitness
          (Optimizer.initializePopulation mutationOf baseContent baseVersion
            populationSize).1 0 0).1 with
    | nil => rw [hS] at hlen; simp at hlen
    | cons first rest =>
      refine ⟨_, runPromptOptimization_eq evalFitness mutationOf offspringOf
        baseContent baseVersion populationSize eliteCount generations first rest
        hS, ?_⟩
      have hseed : evalFitness 0 ≤ first.fitness := by
        have hmem : ({ Optimizer.createCandidate baseContent baseVersion 0 none with
            fitness := evalFitness 0 } : Optimizer.PromptCandidate)
            ∈ (Optimizer.evaluatePopulation evalFitness
              (Optimizer.initializePopulation mutationOf baseContent baseVersion
                populationSize).1 0 0).1 := by
          rw [hE]
          exact List.mem_cons_self _ _
        have := sortByFitness_head_max _ _ hmem first (by rw [hS]; rfl)
        exact this
      exact le_trans hseed
        (runEvolutionFrom_best_mono evalFitness offspringOf populationSize
          eliteCount generations 1 _)

theorem claim3_witness :
    sampleCandidate ∈ ([sampleCandidate].take 1)
    ∧ ({ sampleCandidate with generation := 5 } : Optimizer.PromptCandidate)
        ∈ (Optimizer.runGeneration zeroEval (fixedOffspring 0) [sampleCandidate]
            1 1 5 2 0).newPopulation :=
  ⟨by decide,
    claim3_elitism_and_monotonicity.1 zeroEval (fixedOffspring 0) [sampleCandidate]
      1 1 5 2 0 sampleCandidate (by decide)⟩

/-! ## Prompt version freshness (claim C4) -/

theorem foldr_max_ge (l : List Nat) : ∀ v ∈ l, v ≤ l.foldr max 0 := by
  induction l with
  | nil => intro v hv; cases hv
  | cons a rest ih =>
    intro v hv
    rw [List.foldr_cons]
    rcases List.mem_cons.mp hv with rfl | hv2
    · exact le_max_left _ _
    · exact le_trans (ih v hv2) (le_max_right _ _)

/-- The default-prompt creation always assigns a version not yet in the
table (one more than the global maximum). -/
theorem createDefaultPrompt_fresh (table : List Ranking.PromptRow)
    (content : String) :
    (Ranking.createDefaultPrompt table content).2
      ∉ table.map (fun r => r.version) := by
  intro hmem
  have h := foldr_max_ge (table.map (fun r => r.version))
    (Ranking.createDefaultPrompt table content).2 hmem
  have he : (Ranking.createDefaultPrompt table content).2
      = (table.map (fun r => r.version)).foldr max 0 + 1 := rfl
  omega

theorem head?_mem {α : Type} (l : List α) (a : α) (h : l.head? = some a) :
    a ∈ l := by
  cases l with
  | nil => cases h
  | cons b rest =>
    have hb : b = a := by simpa using h
    rw [← hb]
    exact List.mem_cons_self b rest

/-- Every candidate of a generation's output, and the updated next version,
stay at or above any bound respected by the inputs. -/
theorem runGeneration_version_inv (evalFitness : Nat → ℚ)
    (offspringOf : Nat → Optimizer.OffspringDraw)
    (population : List Optimizer.PromptCandidate)
    (populationSize eliteCount generation nextVersion evalIdx baseVersion : Nat)
    (hpop : ∀ c ∈ population, baseVersion ≤ c.version)
    (hnv : baseVersion ≤ nextVersion) :
    (∀ c ∈ (Optimizer.runGeneration evalFitness offspringOf population
        populationSize eliteCount generation nextVersion evalIdx).newPopulation,
      baseVersion ≤ c.version)
    ∧ baseVersion ≤ (Optimizer.runGeneration evalFitness offspringOf population
        populationSize eliteCount generation nextVersion evalIdx).nextVersion := by
  constructor
  · intro c hc
    rw [Optimizer.runGeneration] at hc
    dsimp only at hc
    have hc2 := (sortByFitness_perm _).mem_iff.mp hc
    refine evaluatePopulation_forall evalFitness
      (fun c => baseVersion ≤ c.version) (fun c fit h => h) _ _ _ ?_ c hc2
    intro a ha
    rcases List.mem_append.mp ha with ha | ha
    · obtain ⟨a0, ha0, rfl⟩ := List.mem_map.mp ha
      exact hpop a0 (List.take_subset _ _ ha0)
    · obtain ⟨k, _, rfl⟩ := List.mem_map.mp ha
      simpa [Optimizer.createCandidate] using
        le_trans hnv (Nat.le_add_right nextVersion k)
  · rw [Optimizer.runGeneration]
    dsimp only
    exact le_trans hnv (Nat.le_add_right _ _)

theorem evolutionStep_version_inv (evalFitness : Nat → ℚ)
    (offspringOf : Nat → Nat → Optimizer.OffspringDraw)
    (populationSize eliteCount gen baseVersion : Nat) (s : Optimizer.OptState)
    (hpop : ∀ c ∈ s.population, baseVersion ≤ c.version)
    (hnv : baseVersion ≤ s.nextVersion)
    (hbest : baseVersion ≤ s.best.version) :
    (∀ c ∈ (Optimizer.evolutionStep evalFitness offspringOf populationSize
        eliteCount gen s).population, baseVersion ≤ c.version)
    ∧ baseVersion ≤ (Optimizer.evolutionStep evalFitness offspringOf
        populationSize eliteCount gen s).nextVersion
    ∧ baseVersion ≤ (Optimizer.evolutionStep evalFitness offspringOf
        populationSize eliteCount gen s).best.version := by
  obtain ⟨hp2, hn2⟩ := runGeneration_version_inv evalFitness (offspringOf gen)
    s.population populationSize eliteCount gen s.nextVersion s.evalIdx
    baseVersion hpop hnv
  rw [Optimizer.evolutionStep]
  dsimp only
  refine ⟨hp2, hn2, ?_⟩
  cases h : (Optimizer.runGeneration evalFitness (offspringOf gen) s.population
      populationSize eliteCount gen s.nextVersion s.evalIdx).newPopulation.head? with
  | none => exact hbest
  | some top =>
    dsimp only
    by_cases hlt : s.best.fitness < top.fitness
    · rw [if_pos hlt]
      exact hp2 top (head?_mem _ top h)
    · rw [if_neg hlt]
      exact hbest

theorem runEvolutionFrom_version_inv (evalFitness : Nat → ℚ)
    (offspringOf : Nat → Nat → Optimizer.OffspringDraw)
    (populationSize eliteCount baseVersion : Nat) :
    ∀ (r gen : Nat) (s : Optimizer.OptState),
      (∀ c ∈ s.population, baseVersion ≤ c.version) →
      baseVersion ≤ s.nextVersion → baseVersion ≤ s.best.version →
      baseVersion ≤ (Optimizer.runEvolutionFrom evalFitness offspringOf
          populationSize eliteCount gen r s).best.version := by
  intro r
  induction r with
  | zero => intro gen s _ _ hbest; exact hbest
  | succ r2 ih =>
    intro gen s hpop hnv hbest
    rw [Optimizer.runEvolutionFrom]
    obtain ⟨h1, h2, h3⟩ := evolutionStep_version_inv evalFitness offspringOf
      populationSize eliteCount gen baseVersion s hpop hnv hbest
    exact ih (gen + 1) _ h1 h2 h3

/-- The version saved at the end of a run is never below the base version. -/
theorem runPromptOptimization_version_ge (evalFitness : Nat → ℚ)
    (mutationOf : Nat → String) (offspringOf : Nat → Nat → Optimizer.OffspringDraw)
    (baseContent : String) (baseVersion populationSize eliteCount generations : Nat)
    (v : Nat)
    (hv : Optimizer.savedBestVersion (Optimizer.runPromptOptimization evalFitness
        mutationOf offspringOf baseContent baseVersion populationSize eliteCount
        generations) = some v) :
    baseVersion ≤ v := by
  have hpop0 : ∀ c ∈ (Optimizer.initializePopulation mutationOf baseContent
      baseVersion populationSize).1, baseVersion ≤ c.version := by
    intro c hc
    rw [Optimizer.initializePopulation] at hc
    dsimp only at hc
    rcases List.mem_cons.mp hc with rfl | hc2
    · exact le_refl _
    · obtain ⟨i, _, rfl⟩ := List.mem_map.mp hc2
      simp [Optimizer.createCandidate]
      omega
  have hpopE : ∀ c ∈ (Optimizer.evaluatePopulation evalFitness
      (Optimizer.initializePopulation mutationOf baseContent baseVersion
        populationSize).1 0 0).1, baseVersion ≤ c.version :=
    evaluatePopulation_forall evalFitness (fun c => baseVersion ≤ c.version)
      (fun c fit h => h) _ 0 0 hpop0
  have hlen : (Optimizer.sortByFitness
      (Optimizer.evaluatePopulation evalFitness
        (Optimizer.initializePopulation mutationOf baseContent baseVersion
          populationSize).1 0 0).1).length ≠ 0 := by
    rw [(sortByFitness_perm _).length_eq]
    have hE : (Optimizer.evaluatePopulation evalFitness
        (Optimizer.initializePopulation mutationOf baseContent baseVersion
          populationSize).1 0 0).1
        = ({ Optimizer.createCandidate baseContent baseVersion 0 none with
              fitness := evalFitness 0 })
          :: (Optimizer.evaluatePopulation evalFitness
              ((List.range (populationSize - 1)).map (fun i =>
                Optimizer.createCandidate (mutationOf i) (baseVersion + 1 + i) 0
                  none)) 0 1).1 := rfl
    rw [hE]
    simp
  cases hS : Optimizer.sortByFitness
      (Optimizer.evaluatePopulation evalFitness
        (Optimizer.initializePopulation mutationOf baseContent baseVersion
          populationSize).1 0 0).1 with
  | nil => rw [hS] at hlen; simp at hlen
  | cons first rest =>
    rw [Optimizer.savedBestVersion,
      runPromptOptimization_eq evalFitness mutationOf offspringOf baseContent
        baseVersion populationSize eliteCount generations first rest hS] at hv
    simp only [Option.map_some'] at hv
    have hvv := Option.some.inj hv
    rw [← hvv]
    have hsorted_mem : ∀ c ∈ first :: rest, baseVersion ≤ c.version := by
      intro c hc
      rw [← hS] at hc
      exact hpopE c ((sortByFitness_perm _).mem_iff.mp hc)
    apply runEvolutionFrom_version_inv evalFitness offspringOf populationSize
      eliteCount baseVersion generations 1 _ hsorted_mem
    · rw [Optimizer.initializePopulation]
      dsimp only
      omega
    · exact hsorted_mem first (List.mem_cons_self first rest)

/-- C4 (amended): the ranking side's default-prompt creation always persists a
fresh version; the optimizer's saved best candidate carries a version at least
the base version, and that version is fresh provided every persisted version
is at most the base version (the active prompt is the latest) and the saved
candidate is not the generation-0 seed (whose version is the base version
itself). -/
theorem claim4_version_freshness :
    (∀ (table : List Ranking.PromptRow) (content : String),
        (Ranking.createDefaultPrompt table content).2
          ∉ table.map (fun r => r.version))
    ∧ (∀ (evalFitness : Nat → ℚ) (mutationOf : Nat → String)
        (offspringOf : Nat → Nat → Optimizer.OffspringDraw) (baseContent : String)
        (baseVersion populationSize eliteCount generations v : Nat),
        Optimizer.savedBestVersion (Optimizer.runPromptOptimization evalFitness
            mutationOf offspringOf baseContent baseVersion populationSize
            eliteCount generations) = some v → baseVersion ≤ v)
    ∧ (∀ (evalFitness : Nat → ℚ) (mutationOf : Nat → String)
        (offspringOf : Nat → Nat → Optimizer.OffspringDraw) (baseContent : String)
        (baseVersion populationSize eliteCount generations : Nat)
        (persisted : List Nat), (∀ w ∈ persisted, w ≤ baseVersion) →
        ∀ v, Optimizer.savedBestVersion (Optimizer.runPromptOptimization
            evalFitness mutationOf offspringOf baseContent baseVersion
            populationSize eliteCount generations) = some v →
          v ≠ baseVersion → v ∉ persisted) := by
  refine ⟨createDefaultPrompt_fresh, ?_, ?_⟩
  · intro evalFitness mutationOf offspringOf baseContent baseVersion
      populationSize eliteCount generations v hv
    exact runPromptOptimization_version_ge evalFitness mutationOf offspringOf
      baseContent baseVersion populationSize eliteCount generations v hv
  · intro evalFitness mutationOf offspringOf baseContent baseVersion
      populationSize eliteCount generations persisted hpers v hv hne hmem
    have hge := runPromptOptimization_version_ge evalFitness mutationOf
      offspringOf baseContent baseVersion populationSize eliteCount generations
      v hv
    have hle := hpers v hmem
    omega

theorem claim4_version_freshness_witness :
    Optimizer.savedBestVersion (Optimizer.runPromptOptimization offspringWinsEval
        fixedMutation fixedOffspring "base" 1 3 2 1) = some 4
    ∧ (4 : Nat) ≠ 1
    ∧ (4 : Nat) ∉ promptTable0.map (fun r => r.version) := by
  refine ⟨by decide, by decide, ?_⟩
  exact claim4_version_freshness.2.2 offspringWinsEval fixedMutation
    fixedOffspring "base" 1 3 2 1 (promptTable0.map (fun r => r.version))
    (by intro w hw; simp [promptTable0] at hw; omega) 4 (by decide) (by decide)

/-- C4 as stated fails: an optimization run whose seed remains the best
candidate saves a prompt row carrying the base prompt's version, which is
already persisted in the prompts table (the run below, with the active base
prompt at version 1 being the one row of the table, saves version 1). -/
theorem claim4_counterexample :
    Optimizer.savedBestVersion (Optimizer.runPromptOptimization zeroEval
        fixedMutation fixedOffspring "base" 1 3 2 1) = some 1
    ∧ (1 : Nat) ∈ promptTable0.map (fun r => r.version) := by
  exact ⟨by decide, by decide⟩

theorem claim6_malformed_response_witness :
    (Ranking.createFailedResult "a" "No JSON found in response").rank = none
    ∧ ((Ranking.createFailedResult "a" "No JSON found in response").reasoning
          = "No JSON found in response"
       ∨ (Ranking.createFailedResult "a" "No JSON found in response").reasoning
          = "Invalid response format") :=
  claim6_malformed_response failDecode "no opening brace here" ["a"]
    (Or.inl (by decide))
    [Ranking.createFailedResult "a" "No JSON found in response"] rfl
    (Ranking.createFailedResult "a" "No JSON found in response") (by decide)

end ThroxySpec
